import Mathlib

/-!
# Verification of the geofs-radar core against its specification

Shallow embedding of the core logic of the geofs-radar repository:

* the waypoint-progress selection `findActiveWaypointIndex` and the geodesy
  helpers from the map component,
* the client reconnection backoff from the viewer page,
* the aircraft removal endpoint and the viewer presence tracker,
* the producer-side reporter tick (takeoff detection and AGL computation)
  from the userscript.

JavaScript numbers appearing in comparisons and arithmetic are modelled as
exact rationals; the floating-point trigonometry of the geodesy module is
modelled over the real numbers.  Optional or possibly-undefined JavaScript
values are modelled with `Option`, and JavaScript truthiness tests are
translated explicitly (`0`, the empty string, `null` and `undefined` are
falsy).
-/

/-! ## Waypoint model (map component, `findActiveWaypointIndex`)

The source iterates over the waypoint array keeping the index of the closest
waypoint seen so far and the minimal distance (initialised to `Infinity`,
modelled as `none`).  The distance function used by the source is the
floating-point haversine `calculateDistance`; the selection logic only
compares distances, so it is embedded parametrically in an arbitrary
exact-valued distance function `dist`. -/

/-- A flight-plan waypoint as consumed by the map component: only the `lat`
and `lon` fields are interpreted, and either may be absent. -/
structure Waypoint where
  lat : Option ℚ
  lon : Option ℚ
deriving DecidableEq

/-- JavaScript truthiness of a numeric value: `undefined`, `null` and `0`
are falsy (model of the test `!wp.lat`). -/
def truthy : Option ℚ → Bool
  | none => false
  | some x => x != 0

/-- The guard of the loop body: the waypoint is skipped unless both
coordinates are truthy (source: `if (!wp.lat || !wp.lon) continue`). -/
def validWp (wp : Waypoint) : Bool := truthy wp.lat && truthy wp.lon

/-- Type of the distance oracle standing for `calculateDistance`. -/
abbrev DistFn := ℚ → ℚ → ℚ → ℚ → ℚ

/-- Distance from the current position to a waypoint, reading the
coordinates of the waypoint (defaulting absent ones, which only happens on
skipped waypoints). -/
def wpDist (dist : DistFn) (lat lon : ℚ) (wp : Waypoint) : ℚ :=
  dist lat lon (wp.lat.getD 0) (wp.lon.getD 0)

/-- The loop of `findActiveWaypointIndex`: walk the list with the running
index `i`, threading the accumulator `(closestWaypointIndex, minDistanceKm)`
where `none` stands for the initial `Infinity`. -/
def scanWps (dist : DistFn) (lat lon : ℚ) : ℕ → List Waypoint → ℤ × Option ℚ → ℤ × Option ℚ
  | _, [], acc => acc
  | i, wp :: rest, acc =>
    scanWps dist lat lon (i + 1) rest
      (if validWp wp then
        match acc with
        | (_, none) => ((i : ℤ), some (wpDist dist lat lon wp))
        | (c, some m) =>
          if wpDist dist lat lon wp < m then ((i : ℤ), some (wpDist dist lat lon wp))
          else (c, some m)
      else acc)

/-- Translation of `findActiveWaypointIndex` from the map component, line by
line: early return `-1` on an empty array, the scanning loop, and the final
advance step `if (minDistanceKm < 50 && closestWaypointIndex <
waypoints.length - 1) return closestWaypointIndex + 1`. -/
def findActiveWaypointIndex (dist : DistFn) (lat lon : ℚ) (waypoints : List Waypoint) : ℤ :=
  if waypoints.length < 1 then -1
  else
    match scanWps dist lat lon 0 waypoints (-1, none) with
    | (c, none) => c
    | (c, some m) =>
      if m < 50 ∧ c < (waypoints.length : ℤ) - 1 then c + 1 else c

/-! ### Specification-side characterisation of the scan -/

/-- Recursive specification of the loop: the first index (relative to the
start `i`) attaining the minimal distance among valid waypoints, with its
distance, or `none` when no waypoint is valid. -/
def bestFrom (dist : DistFn) (lat lon : ℚ) : ℕ → List Waypoint → Option (ℕ × ℚ)
  | _, [] => none
  | i, wp :: rest =>
    if validWp wp then
      match bestFrom dist lat lon (i + 1) rest with
      | none => some (i, wpDist dist lat lon wp)
      | some (j, m) =>
        if wpDist dist lat lon wp ≤ m then some (i, wpDist dist lat lon wp) else some (j, m)
    else bestFrom dist lat lon (i + 1) rest

/-- Merging an accumulator with the best of the remaining list. -/
def mergeAcc (acc : ℤ × Option ℚ) : Option (ℕ × ℚ) → ℤ × Option ℚ
  | none => acc
  | some (j, d) =>
    match acc with
    | (_, none) => ((j : ℤ), some d)
    | (c, some m) => if d < m then ((j : ℤ), some d) else (c, some m)

theorem scanWps_eq_mergeAcc (dist : DistFn) (lat lon : ℚ) :
    ∀ (l : List Waypoint) (i : ℕ) (acc : ℤ × Option ℚ),
      scanWps dist lat lon i l acc = mergeAcc acc (bestFrom dist lat lon i l) := by
  intro l
  induction l with
  | nil => intro i acc; rfl
  | cons wp rest ih =>
    intro i acc
    by_cases hv : validWp wp = true
    · obtain ⟨c, m?⟩ := acc
      cases m? with
      | none =>
        simp only [scanWps, bestFrom, hv, if_true, ih]
        cases htail : bestFrom dist lat lon (i + 1) rest with
        | none => rfl
        | some p =>
          obtain ⟨j, m⟩ := p
          by_cases hle : wpDist dist lat lon wp ≤ m
          · simp only [mergeAcc, if_pos hle, if_neg (not_lt.mpr hle)]
          · simp only [mergeAcc, if_neg hle, if_pos (not_le.mp hle)]
      | some m =>
        simp only [scanWps, bestFrom, hv, if_true, ih]
        cases htail : bestFrom dist lat lon (i + 1) rest with
        | none =>
          by_cases hlt : wpDist dist lat lon wp < m
          · simp only [mergeAcc, if_pos hlt]
          · simp only [mergeAcc, if_neg hlt]
        | some p =>
          obtain ⟨j, m'⟩ := p
          by_cases hle : wpDist dist lat lon wp ≤ m'
          · by_cases hlt : wpDist dist lat lon wp < m
            · simp only [mergeAcc, if_pos hlt, if_pos hle, if_neg (not_lt.mpr hle)]
            · have hmm : ¬ m' < m := not_lt.mpr (le_trans (not_lt.mp hlt) hle)
              simp only [mergeAcc, if_neg hlt, if_pos hle, if_neg hmm]
          · have hm'w : m' < wpDist dist lat lon wp := not_le.mp hle
            by_cases hlt : wpDist dist lat lon wp < m
            · have : m' < m := lt_trans hm'w hlt
              simp only [mergeAcc, if_pos hlt, if_neg hle, if_pos this, if_pos hm'w]
            · simp only [mergeAcc, if_neg hlt, if_neg hle]
    · have hv' : validWp wp = false := by
        cases h : validWp wp with
        | false => rfl
        | true => exact absurd h hv
      simp only [scanWps, bestFrom, hv', if_neg (by simp [hv'] : ¬ validWp wp = true), ih]
      simp [hv']

/-- Waypoint at an absolute index of the original list (arbitrary default
off the end, where `validAt` is false anyway). -/
def wpAt : List Waypoint → ℕ → Waypoint
  | [], _ => ⟨none, none⟩
  | wp :: _, 0 => wp
  | _ :: rest, j + 1 => wpAt rest j

/-- Whether the waypoint at index `j` exists and passes the loop guard. -/
def validAt : List Waypoint → ℕ → Bool
  | [], _ => false
  | wp :: _, 0 => validWp wp
  | _ :: rest, j + 1 => validAt rest j

/-- Distance from the current position to the waypoint at index `j`. -/
def distAt (dist : DistFn) (lat lon : ℚ) (wps : List Waypoint) (j : ℕ) : ℚ :=
  wpDist dist lat lon (wpAt wps j)

theorem validAt_lt_length {wps : List Waypoint} {j : ℕ} (h : validAt wps j = true) :
    j < wps.length := by
  induction wps generalizing j with
  | nil => simp [validAt] at h
  | cons wp rest ih =>
    cases j with
    | zero => simp
    | succ j => exact Nat.succ_lt_succ (ih h)

theorem bestFrom_shift (dist : DistFn) (lat lon : ℚ) :
    ∀ (l : List Waypoint) (i : ℕ),
      bestFrom dist lat lon i l = (bestFrom dist lat lon 0 l).map (fun p => (p.1 + i, p.2)) := by
  intro l
  induction l with
  | nil => intro i; rfl
  | cons wp rest ih =>
    intro i
    by_cases hv : validWp wp = true
    · simp only [bestFrom, hv, if_true, ih (i + 1), ih 1]
      cases htail : bestFrom dist lat lon 0 rest with
      | none => simp
      | some p =>
        obtain ⟨j, m⟩ := p
        by_cases hle : wpDist dist lat lon wp ≤ m
        · simp [if_pos hle]
        · simp only [Option.map_some', if_neg hle]
          have : j + 1 + i = j + (i + 1) := by omega
          rw [this]
    · simp only [bestFrom, hv, if_false, Bool.false_eq_true, ih (i + 1), ih 1]
      cases htail : bestFrom dist lat lon 0 rest with
      | none => simp
      | some p =>
        obtain ⟨j, m⟩ := p
        simp only [Option.map_some']
        have : j + 1 + i = j + (i + 1) := by omega
        rw [this]

/-- Full propositional characterisation of `bestFrom` at start index `0`:
it returns `none` exactly when no index is valid, and otherwise the first
valid index attaining the minimal distance together with that distance. -/
theorem bestFrom_spec (dist : DistFn) (lat lon : ℚ) :
    ∀ wps : List Waypoint,
      (bestFrom dist lat lon 0 wps = none → ∀ j, validAt wps j = false) ∧
      (∀ c m, bestFrom dist lat lon 0 wps = some (c, m) →
        validAt wps c = true ∧ m = distAt dist lat lon wps c ∧
        (∀ j, validAt wps j = true → m ≤ distAt dist lat lon wps j) ∧
        (∀ j, j < c → validAt wps j = true → m < distAt dist lat lon wps j)) := by
  intro wps
  induction wps with
  | nil =>
    refine ⟨fun _ j => rfl, fun c m h => by simp [bestFrom] at h⟩
  | cons wp rest ih =>
    obtain ⟨ihnone, ihsome⟩ := ih
    constructor
    · intro h j
      by_cases hv : validWp wp = true
      · exfalso
        simp only [bestFrom, hv, if_true, bestFrom_shift dist lat lon rest 1] at h
        cases htail : bestFrom dist lat lon 0 rest with
        | none => rw [htail] at h; simp at h
        | some p =>
          obtain ⟨j', m'⟩ := p
          rw [htail] at h
          simp only [Option.map_some'] at h
          by_cases hle : wpDist dist lat lon wp ≤ m' <;> simp [hle] at h
      · simp only [bestFrom, hv, if_false, Bool.false_eq_true,
          bestFrom_shift dist lat lon rest 1] at h
        cases j with
        | zero =>
          simp only [validAt]
          cases hvv : validWp wp with
          | false => rfl
          | true => exact absurd hvv hv
        | succ j =>
          simp only [validAt]
          apply ihnone
          cases htail : bestFrom dist lat lon 0 rest with
          | none => rfl
          | some p => rw [htail] at h; simp at h
    · intro c m h
      by_cases hv : validWp wp = true
      · simp only [bestFrom, hv, if_true, bestFrom_shift dist lat lon rest 1] at h
        cases htail : bestFrom dist lat lon 0 rest with
        | none =>
          rw [htail] at h
          simp only [Option.map_none', Option.some_inj, Prod.mk.injEq] at h
          obtain ⟨hc, hm⟩ := h
          subst hc
          refine ⟨hv, hm.symm, ?_, ?_⟩
          · intro j hj
            cases j with
            | zero => exact le_of_eq hm.symm
            | succ j =>
              exfalso
              have := ihnone htail j
              simp only [validAt] at hj
              rw [this] at hj
              exact Bool.false_ne_true hj
          · intro j hj
            omega
        | some p =>
          obtain ⟨j', m'⟩ := p
          rw [htail] at h
          obtain ⟨hval', hdist', hmin', hfirst'⟩ := ihsome j' m' htail
          simp only [Option.map_some'] at h
          by_cases hle : wpDist dist lat lon wp ≤ m'
          · rw [if_pos hle] at h
            simp only [Option.some_inj, Prod.mk.injEq] at h
            obtain ⟨hc, hm⟩ := h
            subst hc
            refine ⟨hv, hm.symm, ?_, ?_⟩
            · intro j hj
              cases j with
              | zero => exact le_of_eq hm.symm
              | succ j =>
                simp only [validAt] at hj
                have : m' ≤ distAt dist lat lon rest j := hmin' j hj
                calc m = wpDist dist lat lon wp := hm.symm
                  _ ≤ m' := hle
                  _ ≤ distAt dist lat lon rest j := this
            · intro j hj
              omega
          · rw [if_neg hle] at h
            simp only [Option.some_inj, Prod.mk.injEq] at h
            obtain ⟨hc, hm⟩ := h
            subst hm
            subst hc
            refine ⟨hval', hdist', ?_, ?_⟩
            · intro j hj
              cases j with
              | zero =>
                simpa [distAt, wpAt] using le_of_lt (not_le.mp hle)
              | succ j =>
                simp only [validAt] at hj
                exact hmin' j hj
            · intro j hjc hj
              cases j with
              | zero =>
                simpa [distAt, wpAt] using not_le.mp hle
              | succ j =>
                simp only [validAt] at hj
                exact hfirst' j (by omega) hj
      · simp only [bestFrom, hv, if_false, Bool.false_eq_true,
          bestFrom_shift dist lat lon rest 1] at h
        cases htail : bestFrom dist lat lon 0 rest with
        | none => rw [htail] at h; simp at h
        | some p =>
          obtain ⟨j', m'⟩ := p
          rw [htail] at h
          simp only [Option.map_some', Option.some_inj, Prod.mk.injEq] at h
          obtain ⟨hc, hm⟩ := h
          subst hm
          subst hc
          obtain ⟨hval', hdist', hmin', hfirst'⟩ := ihsome j' m' htail
          refine ⟨hval', hdist', ?_, ?_⟩
          · intro j hj
            cases j with
            | zero =>
              exfalso
              simp only [validAt] at hj
              rw [hj] at hv
              exact hv rfl
            | succ j =>
              simp only [validAt] at hj
              exact hmin' j hj
          · intro j hjc hj
            cases j with
            | zero =>
              exfalso
              simp only [validAt] at hj
              rw [hj] at hv
              exact hv rfl
            | succ j =>
              simp only [validAt] at hj
              exact hfirst' j (by omega) hj

/-- Rewriting of `findActiveWaypointIndex` in terms of the specification recursion. -/
theorem findActiveWaypointIndex_eq (dist : DistFn) (lat lon : ℚ) (wps : List Waypoint) :
    findActiveWaypointIndex dist lat lon wps =
      match bestFrom dist lat lon 0 wps with
      | none => -1
      | some (c, m) =>
        if m < 50 ∧ (c : ℤ) < (wps.length : ℤ) - 1 then (c : ℤ) + 1 else (c : ℤ) := by
  cases wps with
  | nil => rfl
  | cons wp rest =>
    have hlen : ¬ (wp :: rest).length < 1 := by simp
    simp only [findActiveWaypointIndex, if_neg hlen,
      scanWps_eq_mergeAcc dist lat lon (wp :: rest) 0 (-1, none)]
    cases hb : bestFrom dist lat lon 0 (wp :: rest) with
    | none => rfl
    | some p =>
      obtain ⟨c, m⟩ := p
      rfl

/-- An index is the first minimiser of the distance over the waypoints that
pass the loop guard. -/
def IsFirstMin (dist : DistFn) (lat lon : ℚ) (wps : List Waypoint) (c : ℕ) : Prop :=
  validAt wps c = true ∧
  (∀ j, j < wps.length → validAt wps j = true →
    distAt dist lat lon wps c ≤ distAt dist lat lon wps j) ∧
  (∀ j, j < c → validAt wps j = true →
    distAt dist lat lon wps c < distAt dist lat lon wps j)

instance (dist : DistFn) (lat lon : ℚ) (wps : List Waypoint) (c : ℕ) :
    Decidable (IsFirstMin dist lat lon wps c) := by
  unfold IsFirstMin
  infer_instance

/-- The first minimiser coincides with what `bestFrom` returns. -/
theorem bestFrom_of_isFirstMin (dist : DistFn) (lat lon : ℚ) (wps : List Waypoint) (c : ℕ)
    (hc : IsFirstMin dist lat lon wps c) :
    bestFrom dist lat lon 0 wps = some (c, distAt dist lat lon wps c) := by
  obtain ⟨hval, hmin, hfirst⟩ := hc
  cases hb : bestFrom dist lat lon 0 wps with
  | none =>
    have := (bestFrom_spec dist lat lon wps).1 hb c
    rw [hval] at this
    exact absurd this (by simp)
  | some p =>
    obtain ⟨c₀, m₀⟩ := p
    obtain ⟨hval₀, hdist₀, hmin₀, hfirst₀⟩ := (bestFrom_spec dist lat lon wps).2 c₀ m₀ hb
    have hlen₀ : c₀ < wps.length := validAt_lt_length hval₀
    have hlec : distAt dist lat lon wps c ≤ distAt dist lat lon wps c₀ := hmin c₀ hlen₀ hval₀
    have hlec₀ : m₀ ≤ distAt dist lat lon wps c := hmin₀ c hval
    have heq : c = c₀ := by
      rcases lt_trichotomy c c₀ with h | h | h
      · exfalso
        have h1 : m₀ < distAt dist lat lon wps c := hfirst₀ c h hval
        rw [hdist₀] at h1
        exact absurd (lt_of_lt_of_le h1 hlec) (lt_irrefl _)
      · exact h
      · exfalso
        have h1 : distAt dist lat lon wps c < distAt dist lat lon wps c₀ := hfirst c₀ h hval₀
        rw [← hdist₀] at h1
        exact absurd (lt_of_le_of_lt hlec₀ h1) (lt_irrefl _)
    subst heq
    rw [hdist₀]

/-- C1.  With `c` the first index attaining the minimal distance among the
waypoints passing the guard, the function returns `c + 1` when the minimal
distance is below 50 km and `c` is not the last index, and `c` otherwise. -/
theorem activeWaypoint_advance_rule (dist : DistFn) (lat lon : ℚ) (wps : List Waypoint)
    (c : ℕ) (hc : IsFirstMin dist lat lon wps c) :
    findActiveWaypointIndex dist lat lon wps =
      if distAt dist lat lon wps c < 50 ∧ (c : ℤ) < (wps.length : ℤ) - 1 then (c : ℤ) + 1
      else (c : ℤ) := by
  rw [findActiveWaypointIndex_eq, bestFrom_of_isFirstMin dist lat lon wps c hc]

/-- Concrete distance oracle used by the witnesses.  The claims hold for
every distance oracle, so the witnesses may pick one whose values are plain
literals (rational arithmetic does not reduce in the kernel, exact literal
comparisons do). -/
def latDist : DistFn := fun _ _ lat2 _ => lat2

/-- Witness for C1: position `(1,1)`, closest waypoint index `0` at distance
`0 < 50`, not the last index, so the result advances to `1`. -/
theorem activeWaypoint_advance_rule_witness :
    IsFirstMin latDist 1 1 [⟨some 1, some 1⟩, ⟨some 3, some 3⟩] 0 ∧
    findActiveWaypointIndex latDist 1 1 [⟨some 1, some 1⟩, ⟨some 3, some 3⟩] = 1 := by
  have h : IsFirstMin latDist 1 1 [⟨some 1, some 1⟩, ⟨some 3, some 3⟩] 0 := by decide
  exact ⟨h, (activeWaypoint_advance_rule latDist 1 1 _ 0 h).trans (by decide)⟩

theorem validAt_eq_validWp_wpAt : ∀ (wps : List Waypoint) (i : ℕ),
    validAt wps i = validWp (wpAt wps i) := by
  intro wps
  induction wps with
  | nil => intro i; simp [validAt, wpAt, validWp, truthy]
  | cons wp rest ih =>
    intro i
    cases i with
    | zero => rfl
    | succ i => exact ih i

/-- The sentinel characterisation, shared by the theorems for C5 and C9. -/
theorem find_eq_neg_one_iff (dist : DistFn) (lat lon : ℚ) (wps : List Waypoint) :
    findActiveWaypointIndex dist lat lon wps = -1 ↔
      ∀ j, j < wps.length → validAt wps j = false := by
  constructor
  · intro h j hj
    cases hb : bestFrom dist lat lon 0 wps with
    | none => exact (bestFrom_spec dist lat lon wps).1 hb j
    | some p =>
      obtain ⟨c₀, m₀⟩ := p
      exfalso
      rw [findActiveWaypointIndex_eq, hb] at h
      change (if m₀ < 50 ∧ (c₀ : ℤ) < (wps.length : ℤ) - 1 then (c₀ : ℤ) + 1
        else (c₀ : ℤ)) = -1 at h
      by_cases hcond : m₀ < 50 ∧ (c₀ : ℤ) < (wps.length : ℤ) - 1
      · rw [if_pos hcond] at h; omega
      · rw [if_neg hcond] at h; omega
  · intro h
    cases hb : bestFrom dist lat lon 0 wps with
    | none => rw [findActiveWaypointIndex_eq, hb]
    | some p =>
      obtain ⟨c₀, m₀⟩ := p
      exfalso
      have hval₀ := ((bestFrom_spec dist lat lon wps).2 c₀ m₀ hb).1
      have := h c₀ (validAt_lt_length hval₀)
      rw [hval₀] at this
      exact Bool.noConfusion this

/-- C5.  The function returns the sentinel `-1` exactly when no waypoint
passes the guard (in particular on the empty list), and skipped waypoints
keep their place in the index numbering: prepending a skipped waypoint
shifts every non-sentinel result by exactly one. -/
theorem activeWaypoint_sentinel_and_numbering (dist : DistFn) (lat lon : ℚ)
    (wps : List Waypoint) :
    (findActiveWaypointIndex dist lat lon wps = -1 ↔
      ∀ j, j < wps.length → validAt wps j = false) ∧
    (∀ w : Waypoint, validWp w = false →
      findActiveWaypointIndex dist lat lon (w :: wps) =
        if findActiveWaypointIndex dist lat lon wps = -1 then -1
        else findActiveWaypointIndex dist lat lon wps + 1) := by
  refine ⟨find_eq_neg_one_iff dist lat lon wps, ?_⟩
  intro w hw
  have hbcons : bestFrom dist lat lon 0 (w :: wps) =
      (bestFrom dist lat lon 0 wps).map (fun p => (p.1 + 1, p.2)) := by
    simp only [bestFrom, hw, Bool.false_eq_true, if_false]
    exact bestFrom_shift dist lat lon wps 1
  rw [findActiveWaypointIndex_eq, hbcons, findActiveWaypointIndex_eq dist lat lon wps]
  cases hb : bestFrom dist lat lon 0 wps with
  | none => simp
  | some p =>
    obtain ⟨c₀, m₀⟩ := p
    simp only [Option.map_some']
    have hlen : ((w :: wps).length : ℤ) = (wps.length : ℤ) + 1 := by
      simp [List.length_cons]
    by_cases hcond : m₀ < 50 ∧ (c₀ : ℤ) < (wps.length : ℤ) - 1
    · have hcond' : m₀ < 50 ∧ ((c₀ + 1 : ℕ) : ℤ) < ((w :: wps).length : ℤ) - 1 := by
        refine ⟨hcond.1, ?_⟩
        rw [hlen]
        push_cast
        have := hcond.2
        omega
      rw [if_pos hcond, if_pos hcond']
      have : ¬ ((c₀ : ℤ) + 1 = -1) := by omega
      rw [if_neg this]
      push_cast
      ring
    · have hcond' : ¬ (m₀ < 50 ∧ ((c₀ + 1 : ℕ) : ℤ) < ((w :: wps).length : ℤ) - 1) := by
        intro hc
        refine hcond ⟨hc.1, ?_⟩
        have := hc.2
        rw [hlen] at this
        push_cast at this
        omega
      rw [if_neg hcond, if_neg hcond']
      have : ¬ ((c₀ : ℤ) = -1) := by omega
      rw [if_neg this]
      push_cast
      ring

/-- Witness for C5: a skipped waypoint (missing latitude) prepended to a
single valid waypoint shifts the result from `0` to `1`. -/
theorem activeWaypoint_sentinel_and_numbering_witness :
    validWp ⟨none, some 2⟩ = false ∧
    findActiveWaypointIndex latDist 0 5 [⟨none, some 2⟩, ⟨some 1, some 1⟩] =
      if findActiveWaypointIndex latDist 0 5 [⟨some 1, some 1⟩] = -1 then -1
      else findActiveWaypointIndex latDist 0 5 [⟨some 1, some 1⟩] + 1 := by
  have h : validWp ⟨none, some 2⟩ = false := by decide
  exact ⟨h, (activeWaypoint_sentinel_and_numbering latDist 0 5 [⟨some 1, some 1⟩]).2
    ⟨none, some 2⟩ h⟩

/-- Replace a present-but-zero coordinate by an absent one. -/
def zeroToNone : Option ℚ → Option ℚ
  | none => none
  | some x => if x = 0 then none else some x

/-- Erase the coordinates of a waypoint that the loop guard treats as
missing, leaving genuinely present coordinates untouched. -/
def wpNormalize (wp : Waypoint) : Waypoint :=
  ⟨zeroToNone wp.lat, zeroToNone wp.lon⟩

theorem truthy_zeroToNone (o : Option ℚ) : truthy (zeroToNone o) = truthy o := by
  cases o with
  | none => rfl
  | some x =>
    by_cases hx : x = 0
    · simp [zeroToNone, truthy, hx]
    · simp [zeroToNone, truthy, hx]

theorem validWp_wpNormalize (wp : Waypoint) : validWp (wpNormalize wp) = validWp wp := by
  simp [validWp, wpNormalize, truthy_zeroToNone]

theorem wpDist_wpNormalize (dist : DistFn) (lat lon : ℚ) (wp : Waypoint)
    (h : validWp wp = true) :
    wpDist dist lat lon (wpNormalize wp) = wpDist dist lat lon wp := by
  obtain ⟨la, lo⟩ := wp
  cases la with
  | none => simp [validWp, truthy] at h
  | some x =>
    cases lo with
    | none => simp [validWp, truthy] at h
    | some y =>
      simp only [validWp, truthy, Bool.and_eq_true, bne_iff_ne, ne_eq] at h
      simp [wpNormalize, zeroToNone, wpDist, h.1, h.2]

theorem bestFrom_wpNormalize (dist : DistFn) (lat lon : ℚ) :
    ∀ (l : List Waypoint) (i : ℕ),
      bestFrom dist lat lon i (l.map wpNormalize) = bestFrom dist lat lon i l := by
  intro l
  induction l with
  | nil => intro i; rfl
  | cons wp rest ih =>
    intro i
    by_cases hv : validWp wp = true
    · have hv' : validWp (wpNormalize wp) = true := by rw [validWp_wpNormalize]; exact hv
      simp only [List.map_cons, bestFrom, hv, hv', if_true, ih (i + 1),
        wpDist_wpNormalize dist lat lon wp hv]
    · have hv' : ¬ validWp (wpNormalize wp) = true := by rw [validWp_wpNormalize]; exact hv
      simp only [List.map_cons, bestFrom, if_neg hv, if_neg hv', ih (i + 1)]

/-- C9.  A waypoint whose latitude or longitude is the (falsy) number `0` is
treated exactly like a waypoint with a missing coordinate: erasing all such
coordinates never changes the result, a list whose waypoints all fail the
guard (in particular all-zero coordinates) yields `-1`, and no such waypoint
is ever the selected closest waypoint. -/
theorem zero_coordinate_waypoints_skipped (dist : DistFn) (lat lon : ℚ)
    (wps : List Waypoint) :
    findActiveWaypointIndex dist lat lon (wps.map wpNormalize) =
      findActiveWaypointIndex dist lat lon wps ∧
    ((∀ wp ∈ wps, validWp wp = false) → findActiveWaypointIndex dist lat lon wps = -1) ∧
    (∀ i, i < wps.length →
      ((wpAt wps i).lat = some 0 ∨ (wpAt wps i).lon = some 0 ∨
        (wpAt wps i).lat = none ∨ (wpAt wps i).lon = none) →
      ¬ IsFirstMin dist lat lon wps i) := by
  refine ⟨?_, ?_, ?_⟩
  · rw [findActiveWaypointIndex_eq, findActiveWaypointIndex_eq,
      bestFrom_wpNormalize dist lat lon wps 0, List.length_map]
  · intro h
    rw [find_eq_neg_one_iff]
    intro j hj
    have hmem : wpAt wps j ∈ wps := by
      clear h
      induction wps generalizing j with
      | nil => simp at hj
      | cons wp rest ih =>
        cases j with
        | zero => exact List.mem_cons_self _ _
        | succ j =>
          exact List.mem_cons_of_mem _ (ih j (Nat.lt_of_succ_lt_succ hj))
    rw [validAt_eq_validWp_wpAt]
    exact h (wpAt wps j) hmem
  · intro i hi hzero hfm
    have hval : validAt wps i = true := hfm.1
    rw [validAt_eq_validWp_wpAt] at hval
    rcases hzero with h0 | h0 | h0 | h0 <;>
      simp [validWp, truthy, h0] at hval

/-- Witness for C9: a single waypoint lying on the equator (latitude `0`)
fails the guard, so the list yields the sentinel. -/
theorem zero_coordinate_waypoints_skipped_witness :
    (∀ wp ∈ ([⟨some 0, some 3⟩] : List Waypoint), validWp wp = false) ∧
    findActiveWaypointIndex latDist 2 2 [⟨some 0, some 3⟩] = -1 := by
  have h : ∀ wp ∈ ([⟨some 0, some 3⟩] : List Waypoint), validWp wp = false := by decide
  exact ⟨h, (zero_coordinate_waypoints_skipped latDist 2 2 [⟨some 0, some 3⟩]).2.1 h⟩

/-- C10.  The result is the sentinel `-1` or an index within the bounds of
the waypoint list: the advance step never produces an out-of-range index. -/
theorem activeWaypoint_index_in_range (dist : DistFn) (lat lon : ℚ)
    (wps : List Waypoint) :
    findActiveWaypointIndex dist lat lon wps = -1 ∨
    (0 ≤ findActiveWaypointIndex dist lat lon wps ∧
      findActiveWaypointIndex dist lat lon wps ≤ (wps.length : ℤ) - 1) := by
  rw [findActiveWaypointIndex_eq]
  cases hb : bestFrom dist lat lon 0 wps with
  | none => exact Or.inl rfl
  | some p =>
    obtain ⟨c₀, m₀⟩ := p
    have hval₀ := ((bestFrom_spec dist lat lon wps).2 c₀ m₀ hb).1
    have hlen₀ : c₀ < wps.length := validAt_lt_length hval₀
    right
    change 0 ≤ (if m₀ < 50 ∧ (c₀ : ℤ) < (wps.length : ℤ) - 1 then (c₀ : ℤ) + 1
        else (c₀ : ℤ)) ∧
      (if m₀ < 50 ∧ (c₀ : ℤ) < (wps.length : ℤ) - 1 then (c₀ : ℤ) + 1
        else (c₀ : ℤ)) ≤ (wps.length : ℤ) - 1
    by_cases hcond : m₀ < 50 ∧ (c₀ : ℤ) < (wps.length : ℤ) - 1
    · rw [if_pos hcond]
      have := hcond.2
      omega
    · rw [if_neg hcond]
      omega

/-! ## Client reconnection controller (viewer page, `connectToStream`)

The page keeps a mutable retry counter `reconnectAttempts`.  The `onerror`
handler computes `Math.min(1000 * Math.pow(2, reconnectAttempts.current),
30000)` from the current counter, then increments the counter and schedules
the reconnect after that delay; the `onopen` handler resets the counter to
zero. -/

/-- Relevant observable events of the subscription channel. -/
inductive StreamEvent where
  | opened
  | errored
deriving DecidableEq

/-- The reconnection controller state: the retry counter. -/
structure ReconnState where
  attempts : ℕ
deriving DecidableEq

/-- Handler `onopen`: reset the retry counter. -/
def onOpen (_ : ReconnState) : ReconnState := { attempts := 0 }

/-- Handler `onerror`: compute the backoff from the current counter, increment the
counter, and return the scheduled delay in milliseconds. -/
def onError (s : ReconnState) : ReconnState × ℕ :=
  ({ attempts := s.attempts + 1 }, min (1000 * 2 ^ s.attempts) 30000)

/-- One event step of the controller. -/
def stepEvent (s : ReconnState) : StreamEvent → ReconnState
  | StreamEvent.opened => onOpen s
  | StreamEvent.errored => (onError s).1

/-- A whole run of events. -/
def runEvents (s : ReconnState) (es : List StreamEvent) : ReconnState :=
  es.foldl stepEvent s

theorem runEvents_errors (n : ℕ) :
    ∀ s : ReconnState,
      runEvents s (List.replicate n StreamEvent.errored) =
        { attempts := s.attempts + n } := by
  induction n with
  | zero => intro s; simp [runEvents]
  | succ n ih =>
    intro s
    have : runEvents s (List.replicate (n + 1) StreamEvent.errored) =
        runEvents { attempts := s.attempts + 1 } (List.replicate n StreamEvent.errored) := by
      simp [runEvents, List.replicate, stepEvent, onError]
    rw [this, ih]
    simp [Nat.add_assoc, Nat.add_comm 1 n]

/-- C2.  Every successful open resets the counter to zero; every failure
increments it by exactly one; and within a run of consecutive failures
following an open, the failure of index `n` (counting from zero) schedules
its reconnect after `min(1000 * 2 ^ n, 30000)` milliseconds. -/
theorem reconnect_backoff_schedule (s : ReconnState) (n : ℕ) :
    (onOpen s).attempts = 0 ∧
    (onError s).1.attempts = s.attempts + 1 ∧
    (onError (runEvents (onOpen s) (List.replicate n StreamEvent.errored))).2 =
      min (1000 * 2 ^ n) 30000 := by
  refine ⟨rfl, rfl, ?_⟩
  rw [runEvents_errors n (onOpen s)]
  simp [onError, onOpen]

/-! ## Removal endpoint (`DELETE`, aircraft clear route)

The handler reads the `aircraftId` path parameter; a falsy value (absent or
the empty string) yields status 400 with an error body, otherwise the entry
is deleted from the `activeAircraft` map and a 200 JSON body
`{success, message, aircraftId}` is returned, with the message reporting
whether the identifier was present. -/

/-- JavaScript truthiness of an optional string (model of `!aircraftId`):
absent and the empty string are falsy. -/
def strTruthy : Option String → Bool
  | none => false
  | some s => s != ""

/-- The response of the removal endpoint. -/
structure DeleteResponse where
  status : ℕ
  success : Option Bool
  message : Option String
  aircraftId : Option String
  error : Option String
deriving DecidableEq

/-- The registry of active aircraft, modelled by its set of keys (the
handler only uses `has` and `delete`). -/
abbrev Registry := List String

/-- The `DELETE` handler: returns the new registry and the response. -/
def deleteAircraft (registry : Registry) (aircraftId : Option String) :
    Registry × DeleteResponse :=
  if strTruthy aircraftId = false then
    (registry, { status := 400, success := none, message := none, aircraftId := none,
                 error := some "Aircraft ID required" })
  else
    let id := aircraftId.getD ""
    let existed := registry.contains id
    (registry.filter (fun k => k ≠ id),
     { status := 200, success := some true,
       message := some (if existed then "Aircraft cleared" else "Aircraft not found"),
       aircraftId := some id, error := none })

/-- C3.  For a present (truthy) identifier the endpoint always answers 200
with `{success, message, aircraftId}`: the entry is removed when present,
other entries are untouched, and an absent identifier is reported as
"Aircraft not found" in the message instead of failing; the status is 400
exactly when the identifier is falsy (absent). -/
theorem delete_endpoint_contract (registry : Registry) (aircraftId : Option String) :
    (∀ id : String, aircraftId = some id → id ≠ "" →
      (deleteAircraft registry aircraftId).2.status = 200 ∧
      (deleteAircraft registry aircraftId).2.success = some true ∧
      (deleteAircraft registry aircraftId).2.aircraftId = some id ∧
      (deleteAircraft registry aircraftId).2.message =
        some (if registry.contains id then "Aircraft cleared" else "Aircraft not found") ∧
      id ∉ (deleteAircraft registry aircraftId).1 ∧
      (∀ k : String, k ≠ id →
        (k ∈ (deleteAircraft registry aircraftId).1 ↔ k ∈ registry))) ∧
    ((deleteAircraft registry aircraftId).2.status = 400 ↔ strTruthy aircraftId = false) := by
  constructor
  · intro id hid hne
    subst hid
    have htr : strTruthy (some id) = true := by
      simp [strTruthy, hne]
    have hcond : ¬ (strTruthy (some id) = false) := by simp [htr]
    unfold deleteAircraft
    rw [if_neg hcond]
    refine ⟨rfl, rfl, rfl, rfl, ?_, ?_⟩
    · simp [List.mem_filter]
    · intro k hk
      simp [List.mem_filter, hk]
  · constructor
    · intro h
      by_contra hft
      have htr : strTruthy aircraftId = true := by
        cases hs : strTruthy aircraftId with
        | false => exact absurd hs hft
        | true => rfl
      have : ¬ (strTruthy aircraftId = false) := by simp [htr]
      simp only [deleteAircraft, if_neg this] at h
      exact absurd h (by norm_num)
    · intro h
      simp only [deleteAircraft, if_pos h]

/-- Witness for C3: removing a never-present identifier from a one-entry
registry answers 200 and reports "not found" without touching the entry. -/
theorem delete_endpoint_contract_witness :
    (deleteAircraft ["UAL1"] (some "DAL2")).2.status = 200 ∧
    (deleteAircraft ["UAL1"] (some "DAL2")).2.message = some "Aircraft not found" ∧
    ("UAL1" ∈ (deleteAircraft ["UAL1"] (some "DAL2")).1 ↔ "UAL1" ∈ (["UAL1"] : Registry)) := by
  have h := (delete_endpoint_contract ["UAL1"] (some "DAL2")).1 "DAL2" rfl (by decide)
  refine ⟨h.1, ?_, h.2.2.2.2.2 "UAL1" (by decide)⟩
  have hm := h.2.2.2.1
  rw [hm]
  decide

/-! ## Viewer presence tracker (viewers route)

`activeViewers` maps a session id to its last-heartbeat timestamp
(`Date.now()`, milliseconds); `VIEWER_TIMEOUT` is 30000 ms.  `GET` sweeps
the expired entries and reports the remaining count; `POST` sweeps, then
refreshes or creates the session (generating an id when the supplied one is
falsy) and reports the new count. -/

/-- The viewer map, as a list of (session id, last heartbeat) pairs with
distinct ids. -/
abbrev ViewerMap := List (String × ℤ)

/-- Constant `VIEWER_TIMEOUT` (milliseconds). -/
def VIEWER_TIMEOUT : ℤ := 30000

/-- Sweep `cleanupExpiredViewers`: drop every entry with
`now - timestamp > VIEWER_TIMEOUT`. -/
def cleanupExpiredViewers (now : ℤ) (m : ViewerMap) : ViewerMap :=
  m.filter (fun p => ¬ (now - p.2 > VIEWER_TIMEOUT))

/-- Body of the `GET` response. -/
structure PresenceGetResponse where
  activeViewers : ℕ
  hasViewers : Bool
deriving DecidableEq

/-- The `GET` handler: sweep, then report the remaining count. -/
def presenceGet (now : ℤ) (m : ViewerMap) : ViewerMap × PresenceGetResponse :=
  let m1 := cleanupExpiredViewers now m
  (m1, { activeViewers := m1.length, hasViewers := decide (m1.length > 0) })

/-- Body of the `POST` response. -/
structure PresencePostResponse where
  success : Bool
  viewerId : String
  activeViewers : ℕ
deriving DecidableEq

/-- Model of `Map.set`: replace or insert the binding for `id`. -/
def mapSet (m : ViewerMap) (id : String) (ts : ℤ) : ViewerMap :=
  (id, ts) :: m.filter (fun p => p.1 ≠ id)

/-- The `POST` handler: sweep, choose the id (the supplied one when truthy,
otherwise the freshly generated `viewer_…` id), insert it with the current
timestamp, and report the new count. -/
def presencePost (now : ℤ) (m : ViewerMap) (viewerId : Option String)
    (freshId : String) : ViewerMap × PresencePostResponse :=
  let m1 := cleanupExpiredViewers now m
  let id := if strTruthy viewerId then viewerId.getD "" else freshId
  let m2 := mapSet m1 id now
  (m2, { success := true, viewerId := id, activeViewers := m2.length })

/-- C4.  From the empty map, a heartbeat with no supplied id registers the
generated id with the current timestamp and answers with that id and a live
count of one; a count query more than `VIEWER_TIMEOUT` later with no
further heartbeat sweeps the entry away and answers zero. -/
theorem presence_heartbeat_then_expiry (now t : ℤ) (freshId : String) :
    (presencePost now [] none freshId).1 = [(freshId, now)] ∧
    (presencePost now [] none freshId).2 =
      { success := true, viewerId := freshId, activeViewers := 1 } ∧
    (t - now > VIEWER_TIMEOUT →
      (presenceGet t [(freshId, now)]).1 = [] ∧
      (presenceGet t [(freshId, now)]).2 =
        { activeViewers := 0, hasViewers := false }) := by
  refine ⟨rfl, rfl, ?_⟩
  intro h
  have hdrop : cleanupExpiredViewers t [(freshId, now)] = [] := by
    simp [cleanupExpiredViewers, List.filter, h]
  constructor
  · simp [presenceGet, hdrop]
  · simp [presenceGet, hdrop]

/-- Witness for C4: heartbeat at time 0, count query at 30001 ms. -/
theorem presence_heartbeat_then_expiry_witness :
    ((30001 : ℤ) - 0 > VIEWER_TIMEOUT) ∧
    (presencePost 0 [] none "viewer_abc").1 = [("viewer_abc", 0)] ∧
    (presenceGet 30001 [("viewer_abc", 0)]).2 =
      { activeViewers := 0, hasViewers := false } := by
  have h : (30001 : ℤ) - 0 > VIEWER_TIMEOUT := by decide
  have hmain := presence_heartbeat_then_expiry 0 30001 "viewer_abc"
  exact ⟨h, hmain.1, (hmain.2.2 h).2⟩

/-! ## Producer-side reporter (userscript interval tick)

Each tick is a no-op when reporting is disabled or there is no aircraft
instance; otherwise the tick reads `groundContact` (defaulting to true when
nullish), records the takeoff time on a ground to air transition, and
remembers the current ground state. -/

/-- The persistent reporter state across ticks. -/
structure ReporterState where
  wasOnGround : Bool
  takeoffTimeUTC : String
deriving DecidableEq

/-- What one tick observes. -/
structure TickInput where
  active : Bool
  hasInstance : Bool
  groundContact : Option Bool
  nowISO : String
deriving DecidableEq

/-- One reporter tick (takeoff-tracking part): guard, nullish-coalesced
ground contact, transition check, state update. -/
def reporterTick (s : ReporterState) (i : TickInput) : ReporterState :=
  if !i.active || !i.hasInstance then s
  else
    { wasOnGround := i.groundContact.getD true,
      takeoffTimeUTC :=
        if s.wasOnGround && !(i.groundContact.getD true) then i.nowISO
        else s.takeoffTimeUTC }

/-- A ground to air transition observed by a (non-skipped) tick. -/
def takeoffTransition (s : ReporterState) (i : TickInput) : Bool :=
  i.active && i.hasInstance && s.wasOnGround && !(i.groundContact.getD true)

/-- A whole run of ticks. -/
def runTicks (s : ReporterState) (is : List TickInput) : ReporterState :=
  is.foldl reporterTick s

/-- No tick of the run observes a ground to air transition. -/
def noTransitionRun : ReporterState → List TickInput → Bool
  | _, [] => true
  | s, i :: is => !takeoffTransition s i && noTransitionRun (reporterTick s i) is

theorem reporterTick_takeoff (s : ReporterState) (i : TickInput) :
    (reporterTick s i).takeoffTimeUTC =
      if takeoffTransition s i then i.nowISO else s.takeoffTimeUTC := by
  cases ha : i.active <;> cases hi : i.hasInstance <;>
    simp [reporterTick, takeoffTransition, ha, hi]

/-- C7.  One tick records the takeoff timestamp exactly on a ground to air
transition (previous tick on ground, current tick airborne, reporter not
skipped), and a run of ticks with no such transition leaves the recorded
timestamp untouched. -/
theorem takeoff_time_recorded_once (s : ReporterState) (i : TickInput)
    (is : List TickInput) :
    ((reporterTick s i).takeoffTimeUTC =
      if takeoffTransition s i then i.nowISO else s.takeoffTimeUTC) ∧
    (noTransitionRun s is = true →
      (runTicks s is).takeoffTimeUTC = s.takeoffTimeUTC) := by
  refine ⟨reporterTick_takeoff s i, ?_⟩
  induction is generalizing s with
  | nil => intro _; rfl
  | cons j js ih =>
    intro h
    simp only [noTransitionRun, Bool.and_eq_true, Bool.not_eq_true'] at h
    obtain ⟨hnt, hrest⟩ := h
    have hstep : (reporterTick s j).takeoffTimeUTC = s.takeoffTimeUTC := by
      rw [reporterTick_takeoff s j, hnt]
      simp
    have : runTicks s (j :: js) = runTicks (reporterTick s j) js := rfl
    rw [this, ih (reporterTick s j) hrest, hstep]

/-- Witness for C7: a takeoff at tick one, then a landing tick and a
disabled tick, after which the recorded timestamp is still that of the
takeoff. -/
theorem takeoff_time_recorded_once_witness :
    noTransitionRun (reporterTick ⟨true, ""⟩ ⟨true, true, some false, "T1"⟩)
      [⟨true, true, some true, "T2"⟩, ⟨false, true, some false, "T3"⟩] = true ∧
    (runTicks (reporterTick ⟨true, ""⟩ ⟨true, true, some false, "T1"⟩)
      [⟨true, true, some true, "T2"⟩, ⟨false, true, some false, "T3"⟩]).takeoffTimeUTC =
      (reporterTick ⟨true, ""⟩ ⟨true, true, some false, "T1"⟩).takeoffTimeUTC := by
  have h : noTransitionRun (reporterTick ⟨true, ""⟩ ⟨true, true, some false, "T1"⟩)
      [⟨true, true, some true, "T2"⟩, ⟨false, true, some false, "T3"⟩] = true := by decide
  exact ⟨h, (takeoff_time_recorded_once (reporterTick ⟨true, ""⟩ ⟨true, true, some false, "T1"⟩)
    ⟨true, true, some false, "T1"⟩
    [⟨true, true, some true, "T2"⟩, ⟨false, true, some false, "T3"⟩]).2 h⟩

/-! ### Altitude above ground (`calculateAGL`) and the composed altitude

`calculateAGL` reads the mean-sea-level altitude and the ground elevation
(feet) from the animation values and the z coordinate (metres) of the
second-to-last collision point of the aircraft instance; when all three are
available (the collision-point list needs length at least two) it returns
`Math.round(altitudeMSL - groundElevationFeet + collisionZFeet)`, otherwise
null.  The tick then composes `payload.alt` as the AGL when it is a number
and `Math.round(altMSL)` otherwise. -/

/-- The three independently-sourced inputs of `calculateAGL`. -/
structure AglSources where
  altitudeMSL : Option ℚ
  groundElevationFeet : Option ℚ
  collisionZMeters : Option (List ℚ)
deriving DecidableEq

/-- The conversion factor `3.2808399` (feet per metre) used by the source. -/
def METERS_TO_FEET : ℚ := 32808399 / 10000000

/-- Translation of `calculateAGL`: null unless the altitude, the ground elevation and at
least two collision points are available; `Math.round` is `round` (both are
floor of the value plus one half). -/
def calculateAGL (src : AglSources) : Option ℤ :=
  match src.altitudeMSL, src.groundElevationFeet, src.collisionZMeters with
  | some msl, some ge, some pts =>
    if 2 ≤ pts.length then
      some (round (msl - ge + pts.getD (pts.length - 2) 0 * METERS_TO_FEET))
    else none
  | _, _, _ => none

/-- Availability of all three sources. -/
def aglAvailable (src : AglSources) : Bool :=
  src.altitudeMSL.isSome && src.groundElevationFeet.isSome &&
    (match src.collisionZMeters with
     | some pts => decide (2 ≤ pts.length)
     | none => false)

/-- The altitude put into the composed report (source:
`typeof altAGL === "number" ? altAGL : Math.round(altMSL)`). -/
def composedAlt (src : AglSources) (altMSL : ℚ) : ℤ :=
  match calculateAGL src with
  | some v => v
  | none => round altMSL

/-- C8.  When any of the three altitude sources is unavailable the AGL
estimate is null and the composed report falls back to the rounded
mean-sea-level altitude; otherwise the AGL is the rounded
`altitudeMSL - groundElevationFeet + collisionZFeet` and is used as the
reported altitude. -/
theorem agl_estimate_and_fallback (src : AglSources) (altMSL : ℚ) :
    (aglAvailable src = false →
      calculateAGL src = none ∧ composedAlt src altMSL = round altMSL) ∧
    (∀ (msl ge : ℚ) (pts : List ℚ),
      src.altitudeMSL = some msl → src.groundElevationFeet = some ge →
      src.collisionZMeters = some pts → 2 ≤ pts.length →
      calculateAGL src =
        some (round (msl - ge + pts.getD (pts.length - 2) 0 * METERS_TO_FEET)) ∧
      composedAlt src altMSL =
        round (msl - ge + pts.getD (pts.length - 2) 0 * METERS_TO_FEET)) := by
  obtain ⟨msl?, ge?, pts?⟩ := src
  constructor
  · intro h
    cases msl? with
    | none =>
      cases ge? <;> cases pts? <;> simp [calculateAGL, composedAlt]
    | some msl =>
      cases ge? with
      | none => cases pts? <;> simp [calculateAGL, composedAlt]
      | some ge =>
        cases pts? with
        | none => simp [calculateAGL, composedAlt]
        | some pts =>
          simp only [aglAvailable, Option.isSome_some, Bool.true_and] at h
          have hlen : ¬ (2 ≤ pts.length) := by
            intro hc
            rw [decide_eq_true hc] at h
            exact Bool.noConfusion h
          simp [calculateAGL, composedAlt, if_neg hlen]
  · intro msl ge pts hmsl hge hpts hlen
    cases hmsl
    cases hge
    cases hpts
    constructor
    · simp [calculateAGL, if_pos hlen]
    · simp [composedAlt, calculateAGL, if_pos hlen]

/-- Witness for C8: with MSL 1000 ft, ground elevation 900 ft and collision
z values `[5, 10, 3]` m (second-to-last is 10 m = 32.808399 ft) the AGL is
`round 132.808399 = 133`; with the MSL source missing the report falls back
to `round 493.5 = 494`. -/
theorem agl_estimate_and_fallback_witness :
    calculateAGL ⟨some 1000, some 900, some [5, 10, 3]⟩ = some 133 ∧
    composedAlt ⟨some 1000, some 900, some [5, 10, 3]⟩ 1000 = 133 ∧
    aglAvailable ⟨none, some 1, some [1, 2]⟩ = false ∧
    composedAlt ⟨none, some 1, some [1, 2]⟩ (987 / 2) = 494 := by
  have happ := (agl_estimate_and_fallback ⟨some 1000, some 900, some [5, 10, 3]⟩ 1000).2
    1000 900 [5, 10, 3] rfl rfl rfl (by decide)
  have hz : ([5, 10, 3] : List ℚ).getD (([5, 10, 3] : List ℚ).length - 2) 0 = 10 := rfl
  have hval : round ((1000 : ℚ) - 900 +
      ([5, 10, 3] : List ℚ).getD (([5, 10, 3] : List ℚ).length - 2) 0 * METERS_TO_FEET) =
      133 := by
    rw [hz]
    norm_num [METERS_TO_FEET, round_eq]
  have hfb := (agl_estimate_and_fallback ⟨none, some 1, some [1, 2]⟩ (987 / 2)).1 rfl
  refine ⟨?_, ?_, rfl, ?_⟩
  · rw [happ.1, hval]
  · rw [happ.2, hval]
  · rw [hfb.2]
    norm_num [round_eq]

/-! ## Geodesy: `calculateBearing` (map component)

The source computes the forward azimuth with `Math.atan2` and normalises
with `(θ + 360) % 360`.  The floating-point trigonometry is modelled
exactly over the real numbers: `Math.sin`, `Math.cos`, `Math.atan2` become
their exact counterparts, and the JavaScript remainder `%` (truncating) is
modelled with the floor remainder, which coincides with it on the
non-negative dividends produced here. -/

/-- Degree to radian conversion from the source. -/
noncomputable def toRad (deg : ℝ) : ℝ := deg * Real.pi / 180

/-- Radian to degree conversion from the source. -/
noncomputable def toDeg (rad : ℝ) : ℝ := rad * 180 / Real.pi

-- `Math.atan2 y x` (range `(-pi, pi]`, signed zeros ignored).
open Classical in
noncomputable def jsAtan2 (y x : ℝ) : ℝ :=
  if 0 < x then Real.arctan (y / x)
  else if x < 0 ∧ 0 ≤ y then Real.arctan (y / x) + Real.pi
  else if x < 0 ∧ y < 0 then Real.arctan (y / x) - Real.pi
  else if 0 < y then Real.pi / 2
  else if y < 0 then -(Real.pi / 2)
  else 0

/-- The remainder `a % n` of JavaScript for the dividends arising in
`calculateBearing` (which are ≥ 0, where truncating and floor remainder
agree). -/
noncomputable def jsMod (a n : ℝ) : ℝ := a - n * ((⌊a / n⌋ : ℤ) : ℝ)

/-- Translation of `calculateBearing` from the map component: forward azimuth of the great
circle from point 1 to point 2, normalised by `(θ + 360) % 360`. -/
noncomputable def calculateBearing (lat1 lon1 lat2 lon2 : ℝ) : ℝ :=
  jsMod
    (toDeg (jsAtan2
      (Real.sin (toRad (lon2 - lon1)) * Real.cos (toRad lat2))
      (Real.cos (toRad lat1) * Real.sin (toRad lat2) -
        Real.sin (toRad lat1) * Real.cos (toRad lat2) * Real.cos (toRad (lon2 - lon1))))
      + 360) 360

theorem jsMod_of_nonneg_lt (a : ℝ) (h0 : 0 ≤ a) (h1 : a < 360) : jsMod a 360 = a := by
  have hfl : ⌊a / 360⌋ = 0 := by
    rw [Int.floor_eq_iff]
    constructor
    · push_cast
      positivity
    · push_cast
      rw [div_lt_iff (by norm_num : (0:ℝ) < 360)]
      linarith
  rw [jsMod, hfl]
  push_cast
  ring

theorem jsMod_of_ge_360 (a : ℝ) (h0 : 360 ≤ a) (h1 : a < 720) : jsMod a 360 = a - 360 := by
  have hfl : ⌊a / 360⌋ = 1 := by
    rw [Int.floor_eq_iff]
    constructor
    · push_cast
      rw [le_div_iff (by norm_num : (0:ℝ) < 360)]
      linarith
    · push_cast
      rw [div_lt_iff (by norm_num : (0:ℝ) < 360)]
      linarith
  rw [jsMod, hfl]
  push_cast
  ring

theorem jsMod_of_neg (a : ℝ) (h0 : -360 ≤ a) (h1 : a < 0) : jsMod a 360 = a + 360 := by
  have hfl : ⌊a / 360⌋ = -1 := by
    rw [Int.floor_eq_iff]
    constructor
    · push_cast
      rw [le_div_iff (by norm_num : (0:ℝ) < 360)]
      linarith
    · push_cast
      rw [div_lt_iff (by norm_num : (0:ℝ) < 360)]
      linarith
  rw [jsMod, hfl]
  push_cast
  ring

theorem jsAtan2_of_pos_zero {y : ℝ} (hy : 0 < y) : jsAtan2 y 0 = Real.pi / 2 := by
  rw [jsAtan2, if_neg (lt_irrefl 0), if_neg (fun h => lt_irrefl 0 h.1),
    if_neg (fun h => lt_irrefl 0 h.1), if_pos hy]

theorem jsAtan2_of_neg_zero {y : ℝ} (hy : y < 0) : jsAtan2 y 0 = -(Real.pi / 2) := by
  rw [jsAtan2, if_neg (lt_irrefl 0), if_neg (fun h => lt_irrefl 0 h.1),
    if_neg (fun h => lt_irrefl 0 h.1), if_neg (not_lt.mpr (le_of_lt hy)), if_pos hy]

theorem toDeg_pi_div_two : toDeg (Real.pi / 2) = 90 := by
  rw [toDeg]
  field_simp
  ring

theorem toDeg_neg_pi_div_two : toDeg (-(Real.pi / 2)) = -90 := by
  rw [toDeg]
  field_simp
  ring

theorem toDeg_pi_div_four : toDeg (Real.pi / 4) = 45 := by
  rw [toDeg]
  field_simp
  ring

theorem toRad_zero : toRad 0 = 0 := by
  rw [toRad]
  ring

theorem calculateBearing_eg1 : calculateBearing 0 0 45 90 = 45 := by
  unfold calculateBearing
  have e1 : toRad (90 - 0) = Real.pi / 2 := by rw [toRad]; ring
  have e2 : toRad 45 = Real.pi / 4 := by rw [toRad]; ring
  rw [e1, e2, toRad_zero, Real.sin_pi_div_two, Real.cos_pi_div_four, Real.cos_zero,
    Real.sin_zero, Real.sin_pi_div_four, Real.cos_pi_div_two]
  have hx : (1:ℝ) * (Real.sqrt 2 / 2) - 0 * (Real.sqrt 2 / 2) * 0 = 1 * (Real.sqrt 2 / 2) := by
    ring
  rw [hx]
  have hpos : (0:ℝ) < 1 * (Real.sqrt 2 / 2) := by positivity
  rw [jsAtan2, if_pos hpos, div_self (ne_of_gt hpos), Real.arctan_one, toDeg_pi_div_four]
  have h405 : (45:ℝ) + 360 = 405 := by norm_num
  rw [h405, jsMod_of_ge_360 405 (by norm_num) (by norm_num)]
  norm_num

theorem calculateBearing_eg2 : calculateBearing 45 90 0 0 = 270 := by
  unfold calculateBearing
  have e1 : toRad (0 - 90) = -(Real.pi / 2) := by rw [toRad]; ring
  have e2 : toRad 45 = Real.pi / 4 := by rw [toRad]; ring
  rw [e1, e2, toRad_zero, Real.sin_neg, Real.sin_pi_div_two, Real.cos_neg, Real.cos_pi_div_two,
    Real.cos_zero, Real.sin_zero]
  have hx : Real.cos (Real.pi / 4) * 0 - Real.sin (Real.pi / 4) * 1 * 0 = 0 := by ring
  have hy : -(1:ℝ) * 1 = -1 := by ring
  rw [hx, hy, jsAtan2_of_neg_zero (by norm_num : (-1:ℝ) < 0), toDeg_neg_pi_div_two]
  have h270 : (-90:ℝ) + 360 = 270 := by norm_num
  rw [h270, jsMod_of_nonneg_lt 270 (by norm_num) (by norm_num)]

/-- C6 counterexample.  For the points a = (0°, 0°) and b = (45°, 90°) the
two bearings are exactly 45° and 270° in exact real arithmetic, so their
difference mod 360 is 225°: it misses 180° by a full 45°, far beyond any
floating tolerance, refuting the claim for this pair of points. -/
theorem bearing_reverse_not_approx_180 :
    calculateBearing 0 0 45 90 = 45 ∧
    calculateBearing 45 90 0 0 = 270 ∧
    jsMod (calculateBearing 45 90 0 0 - calculateBearing 0 0 45 90) 360 = 225 ∧
    |jsMod (calculateBearing 45 90 0 0 - calculateBearing 0 0 45 90) 360 - 180| = 45 := by
  have hdiff : jsMod (calculateBearing 45 90 0 0 - calculateBearing 0 0 45 90) 360 = 225 := by
    rw [calculateBearing_eg1, calculateBearing_eg2]
    have : (270:ℝ) - 45 = 225 := by norm_num
    rw [this, jsMod_of_nonneg_lt 225 (by norm_num) (by norm_num)]
  refine ⟨calculateBearing_eg1, calculateBearing_eg2, hdiff, ?_⟩
  rw [hdiff]
  norm_num

theorem calculateBearing_equator_pos (l1 l2 : ℝ)
    (hs : 0 < Real.sin (toRad (l2 - l1))) : calculateBearing 0 l1 0 l2 = 90 := by
  unfold calculateBearing
  rw [toRad_zero, Real.cos_zero, Real.sin_zero]
  have hx : (1:ℝ) * 0 - 0 * 1 * Real.cos (toRad (l2 - l1)) = 0 := by ring
  have hy : Real.sin (toRad (l2 - l1)) * 1 = Real.sin (toRad (l2 - l1)) := by ring
  rw [hx, hy, jsAtan2_of_pos_zero hs, toDeg_pi_div_two]
  have h450 : (90:ℝ) + 360 = 450 := by norm_num
  rw [h450, jsMod_of_ge_360 450 (by norm_num) (by norm_num)]
  norm_num

theorem calculateBearing_equator_neg (l1 l2 : ℝ)
    (hs : Real.sin (toRad (l2 - l1)) < 0) : calculateBearing 0 l1 0 l2 = 270 := by
  unfold calculateBearing
  rw [toRad_zero, Real.cos_zero, Real.sin_zero]
  have hx : (1:ℝ) * 0 - 0 * 1 * Real.cos (toRad (l2 - l1)) = 0 := by ring
  have hy : Real.sin (toRad (l2 - l1)) * 1 = Real.sin (toRad (l2 - l1)) := by ring
  rw [hx, hy, jsAtan2_of_neg_zero hs, toDeg_neg_pi_div_two]
  have h270 : (-90:ℝ) + 360 = 270 := by norm_num
  rw [h270, jsMod_of_nonneg_lt 270 (by norm_num) (by norm_num)]

/-- C6, amended.  The reverse bearing differs from the forward bearing by
exactly 180° (mod 360) whenever both points lie on the equator and the
longitude difference has nonzero sine; for general points the two bearings
differ by 180° plus the meridian convergence, which can be arbitrarily far
from 180° (see the counterexample, where it is 225°). -/
theorem bearing_reverse_equator_diff_180 (lon1 lon2 : ℝ)
    (h : Real.sin (toRad (lon2 - lon1)) ≠ 0) :
    jsMod (calculateBearing 0 lon2 0 lon1 - calculateBearing 0 lon1 0 lon2) 360 = 180 := by
  have hneg : toRad (lon1 - lon2) = -(toRad (lon2 - lon1)) := by
    rw [toRad, toRad]; ring
  rcases lt_or_gt_of_ne h with hs | hs
  · have hf : calculateBearing 0 lon1 0 lon2 = 270 :=
      calculateBearing_equator_neg lon1 lon2 hs
    have hr : calculateBearing 0 lon2 0 lon1 = 90 := by
      apply calculateBearing_equator_pos
      rw [hneg, Real.sin_neg]
      linarith
    rw [hf, hr]
    have : (90:ℝ) - 270 = -180 := by norm_num
    rw [this, jsMod_of_neg (-180) (by norm_num) (by norm_num)]
    norm_num
  · have hf : calculateBearing 0 lon1 0 lon2 = 90 :=
      calculateBearing_equator_pos lon1 lon2 hs
    have hr : calculateBearing 0 lon2 0 lon1 = 270 := by
      apply calculateBearing_equator_neg
      rw [hneg, Real.sin_neg]
      linarith
    rw [hf, hr]
    have : (270:ℝ) - 90 = 180 := by norm_num
    rw [this, jsMod_of_nonneg_lt 180 (by norm_num) (by norm_num)]

/-- Witness for the amended C6: the equator points (0°, 0°) and (0°, 90°),
whose bearings are 90° and 270°. -/
theorem bearing_reverse_equator_diff_180_witness :
    Real.sin (toRad (90 - 0)) ≠ 0 ∧
    jsMod (calculateBearing 0 90 0 0 - calculateBearing 0 0 0 90) 360 = 180 := by
  have h : Real.sin (toRad (90 - 0)) ≠ 0 := by
    have e : toRad (90 - 0) = Real.pi / 2 := by rw [toRad]; ring
    rw [e, Real.sin_pi_div_two]
    norm_num
  exact ⟨h, bearing_reverse_equator_diff_180 0 90 h⟩
